import Mathlib

/-!
Verification of the FakeMinecraftServer packet layer (`src/main.py`).

The Python code is shallowly embedded in Lean:

* a TCP byte stream delivered by a client is a `List Nat` (each element a
  byte `< 256`); `sock.recv n` on such a one-shot buffer returns
  `s.take n` and leaves `s.drop n` (Python `recv` returns at most `n`
  bytes and returns `b""` at end of stream, raising no error on a short
  read);
* a raised exception is represented by `none` / an error constructor,
  together with the bytes already consumed at the point of the raise
  (a real socket keeps consumed bytes consumed even when an exception
  propagates);
* Python integers are `Nat` (they are non-negative everywhere in the
  program except in the termination analysis of `write_varint`, where
  `Int` with floor division `Int.ediv` — Lean's `/` on `Int` — models
  Python's arithmetic right shift).
-/

namespace FakeMC

/-- One step state of `PacketUtils.read_varint` (src/main.py lines 44-58).
`read_varint_aux s num_read result` mirrors the loop body: receive one
byte; if the stream is exhausted, `break` (returning the value
accumulated so far); otherwise or the low 7 bits into `result` at
position `7 * num_read`, increment `num_read`, `break` when the high bit
of the byte is clear, and raise "VarInt too big" (modelled as `none`)
when `num_read` exceeds 5 while the continuation bit is still set.  The
second component of the output is the unconsumed remainder of the
stream, which on a raise is the stream after the six consumed bytes. -/
def read_varint_aux : List Nat → Nat → Nat → Option Nat × List Nat
  | [], _, result => (some result, [])
  | b :: rest, num_read, result =>
    let result' := result ||| ((b &&& 0x7F) <<< (7 * num_read))
    if b &&& 0x80 == 0 then (some result', rest)
    else if num_read + 1 > 5 then (none, rest)
    else read_varint_aux rest (num_read + 1) result'

/-- The entry point `PacketUtils.read_varint`, started with
`num_read = 0` and `result = 0` as in the source. -/
def read_varint (s : List Nat) : Option Nat × List Nat :=
  read_varint_aux s 0 0

/-- Fuel-indexed body of `PacketUtils.write_varint` (src/main.py lines
61-71).  One unfolding emits `value & 0x7F`, with `0x80` or-ed in when
the value shifted right by 7 is still non-zero, and loops on the shifted
value until it reaches zero.  The fuel only serves structural recursion;
`write_varint_go_congr` shows any fuel of at least `value` gives the
same answer, and `write_varint_eq` recovers the source loop verbatim. -/
def write_varint_go : Nat → Nat → List Nat
  | 0, value => [value &&& 0x7F]
  | fuel + 1, value =>
    if value >>> 7 = 0 then [value &&& 0x7F]
    else (value &&& 0x7F ||| 0x80) :: write_varint_go fuel (value >>> 7)

/-- Embedding of `PacketUtils.write_varint` on the non-negative integers
it is actually called with; the characteristic equation is
`write_varint_eq`. -/
def write_varint (value : Nat) : List Nat :=
  write_varint_go value value

/-- The loop of `PacketUtils.write_varint` over Python's unbounded
signed integers, made total with a fuel argument: `none` means the loop
has not finished within `fuel` iterations.  Python's `value & 0x7F` on a
signed integer is `value % 128` with a non-negative result (Lean's
`Int.emod`), and `value >>= 7` is floor division by 128 (Lean's
`Int.ediv`, written `/`).  The accumulated buffer is passed explicitly. -/
def write_varint_loop : Nat → Int → List Nat → Option (List Nat)
  | 0, _, _ => none
  | fuel + 1, value, buf =>
    let temp := (value % 128).toNat
    let value' := value / 128
    let temp' := if value' ≠ 0 then temp ||| 0x80 else temp
    if value' = 0 then some (buf ++ [temp'])
    else write_varint_loop fuel value' (buf ++ [temp'])

/-- Strict UTF-8 decoding of a byte list into code points, as performed
by Python's `bytes.decode("utf-8")` (src/main.py lines 76 and 107):
1-4 byte sequences, continuation bytes in `0x80-0xBF`, overlong forms,
surrogate code points and values above `0x10FFFF` rejected. -/
def utf8_decode_aux : List Nat → Option (List Char)
  | [] => some []
  | b :: rest =>
    if b < 0x80 then
      (utf8_decode_aux rest).map (fun cs => Char.ofNat b :: cs)
    else if b < 0xC2 then none
    else if b < 0xE0 then
      match rest with
      | b2 :: rest2 =>
        if 0x80 ≤ b2 ∧ b2 < 0xC0 then
          (utf8_decode_aux rest2).map (fun cs =>
            Char.ofNat ((b - 0xC0) * 0x40 + (b2 - 0x80)) :: cs)
        else none
      | [] => none
    else if b < 0xF0 then
      match rest with
      | b2 :: b3 :: rest3 =>
        if (if b = 0xE0 then 0xA0 ≤ b2 ∧ b2 < 0xC0
            else if b = 0xED then 0x80 ≤ b2 ∧ b2 < 0xA0
            else 0x80 ≤ b2 ∧ b2 < 0xC0) ∧ 0x80 ≤ b3 ∧ b3 < 0xC0 then
          (utf8_decode_aux rest3).map (fun cs =>
            Char.ofNat ((b - 0xE0) * 0x1000 + (b2 - 0x80) * 0x40 + (b3 - 0x80)) :: cs)
        else none
      | _ => none
    else if b < 0xF5 then
      match rest with
      | b2 :: b3 :: b4 :: rest4 =>
        if (if b = 0xF0 then 0x90 ≤ b2 ∧ b2 < 0xC0
            else if b = 0xF4 then 0x80 ≤ b2 ∧ b2 < 0x90
            else 0x80 ≤ b2 ∧ b2 < 0xC0) ∧
            (0x80 ≤ b3 ∧ b3 < 0xC0) ∧ (0x80 ≤ b4 ∧ b4 < 0xC0) then
          (utf8_decode_aux rest4).map (fun cs =>
            Char.ofNat ((b - 0xF0) * 0x40000 + (b2 - 0x80) * 0x1000 +
              (b3 - 0x80) * 0x40 + (b4 - 0x80)) :: cs)
        else none
      | _ => none
    else none

/-- UTF-8 decoding a byte list into a string, `none` on invalid input. -/
def utf8_decode (s : List Nat) : Option String :=
  (utf8_decode_aux s).map (fun cs => String.mk cs)

/-- UTF-8 encoding of one code point, as performed by Python's
`str.encode("utf-8")` (src/main.py line 80). -/
def utf8_encode_char (c : Char) : List Nat :=
  let n := c.toNat
  if n < 0x80 then [n]
  else if n < 0x800 then [0xC0 + n / 0x40, 0x80 + n % 0x40]
  else if n < 0x10000 then
    [0xE0 + n / 0x1000, 0x80 + n / 0x40 % 0x40, 0x80 + n % 0x40]
  else
    [0xF0 + n / 0x40000, 0x80 + n / 0x1000 % 0x40, 0x80 + n / 0x40 % 0x40,
      0x80 + n % 0x40]

/-- UTF-8 encoding of a string into a byte list. -/
def str_bytes (s : String) : List Nat :=
  (s.data.map utf8_encode_char).flatten

/-- Embedding of `PacketUtils.write_utf` (src/main.py lines 79-81):
the UTF-8 byte length as a VarInt followed by the UTF-8 bytes. -/
def write_utf (s : String) : List Nat :=
  write_varint (str_bytes s).length ++ str_bytes s

/-- Embedding of `PacketUtils.read_utf` (src/main.py lines 74-76) on a
one-shot buffer: a VarInt length, then `recv(length)` — which yields
`take length`, possibly fewer bytes than asked with no error — decoded
as UTF-8.  `none` in the first component models a raised exception; the
second component is the unconsumed remainder in every case. -/
def read_utf (s : List Nat) : Option String × List Nat :=
  match read_varint s with
  | (none, rest) => (none, rest)
  | (some len, rest) =>
    match utf8_decode (rest.take len) with
    | none => (none, rest.drop len)
    | some str => (some str, rest.drop len)

/-- The guarded optional-username read of `ClientThread.run`
(src/main.py lines 104-110): `username = "Unknown"`, then inside a
`try` block a VarInt length and `recv(length).decode("utf-8")`; any
exception is swallowed, leaving `"Unknown"` and the bytes consumed up
to the failure point consumed. -/
def username_step (s : List Nat) : String × List Nat :=
  match read_varint s with
  | (none, rest) => ("Unknown", rest)
  | (some len, rest) =>
    match utf8_decode (rest.take len) with
    | none => ("Unknown", rest.drop len)
    | some u => (u, rest.drop len)

/-- Lowercase hexadecimal digit, as used by Python's JSON encoder. -/
def hexDigitChar (n : Nat) : Char :=
  if n < 10 then Char.ofNat (48 + n) else Char.ofNat (87 + n)

/-- Four lowercase hex digits of a value below `0x10000`. -/
def uhex4 (n : Nat) : String :=
  String.mk [hexDigitChar (n / 4096 % 16), hexDigitChar (n / 256 % 16),
    hexDigitChar (n / 16 % 16), hexDigitChar (n % 16)]

/-- Escaping of one character by Python's `json.dumps` with its default
`ensure_ascii=True`: the two-character escapes for backslash, quote,
backspace, tab, newline, form feed and carriage return; printable ASCII
kept; everything else as `\uXXXX`, astral code points as a surrogate
pair. -/
def json_escape_char (c : Char) : String :=
  if c = '\\' then "\\\\"
  else if c = '\"' then "\\\""
  else if c.toNat = 8 then "\\b"
  else if c.toNat = 9 then "\\t"
  else if c.toNat = 10 then "\\n"
  else if c.toNat = 12 then "\\f"
  else if c.toNat = 13 then "\\r"
  else if 0x20 ≤ c.toNat ∧ c.toNat ≤ 0x7E then String.singleton c
  else if c.toNat < 0x10000 then "\\u" ++ uhex4 c.toNat
  else
    "\\u" ++ uhex4 (0xD800 + (c.toNat - 0x10000) / 0x400) ++
      "\\u" ++ uhex4 (0xDC00 + (c.toNat - 0x10000) % 0x400)

/-- JSON escaping of a whole string. -/
def json_escape (s : String) : String :=
  String.join (s.data.map json_escape_char)

/-- A JSON string literal: the escaped text in double quotes. -/
def json_str (s : String) : String :=
  "\"" ++ json_escape s ++ "\""

/-- The base64 alphabet used by `base64.b64encode`. -/
def b64_alphabet : List Char :=
  "ABCDEFGHIJKLMNOPQRSTUVWXYZabcdefghijklmnopqrstuvwxyz0123456789+/".data

/-- One base64 digit. -/
def b64_char (n : Nat) : Char :=
  b64_alphabet.getD n 'A'

/-- Standard base64 with padding, as `base64.b64encode` produces
(src/main.py line 121). -/
def b64encode : List Nat → String
  | [] => ""
  | [a] => String.mk [b64_char (a / 4), b64_char (a % 4 * 16)] ++ "=="
  | [a, b] =>
    String.mk [b64_char (a / 4), b64_char (a % 4 * 16 + b / 16),
      b64_char (b % 16 * 4)] ++ "="
  | a :: b :: c :: rest =>
    String.mk [b64_char (a / 4), b64_char (a % 4 * 16 + b / 16),
      b64_char (b % 16 * 4 + c / 64), b64_char (c % 64)] ++ b64encode rest

/-- The configuration values `ClientThread` reads from the YAML config
(src/main.py lines 13-34): all keys of the generated default config are
present.  The filesystem interaction of the favicon branch (src/main.py
lines 118-122) is folded into `icon`: `some bytes` when `server_icon`
names an existing file with those contents, `none` when the configured
path is empty or does not exist. -/
structure ServerConfig where
  version_text : String
  motd : String
  kick_message : String
  max_players : Int
  online_players : Int
  icon : Option (List Nat)
deriving DecidableEq

/-- The `status` dictionary built by `ClientThread.run` on the status
path (src/main.py lines 113-122), before JSON serialization. -/
structure StatusObj where
  version_name : String
  version_protocol : Int
  players_max : Int
  players_online : Int
  description_text : String
  favicon : Option String
deriving DecidableEq

/-- Construction of the `status` dictionary from the configuration:
`version.protocol` is the literal `-1`; the favicon data URI is added
only when icon bytes are available (src/main.py lines 113-122). -/
def mkStatus (cfg : ServerConfig) : StatusObj :=
  { version_name := cfg.version_text
    version_protocol := -1
    players_max := cfg.max_players
    players_online := cfg.online_players
    description_text := cfg.motd
    favicon := cfg.icon.map (fun bs => "data:image/png;base64," ++ b64encode bs) }

/-- Serialization of the `status` dictionary by `json.dumps` with
default separators and key insertion order (src/main.py line 123). -/
def json_dumps_status (o : StatusObj) : String :=
  "\x7b\"version\": \x7b\"name\": " ++ json_str o.version_name ++
    ", \"protocol\": " ++ toString o.version_protocol ++
    "\x7d, \"players\": \x7b\"max\": " ++ toString o.players_max ++
    ", \"online\": " ++ toString o.players_online ++
    "\x7d, \"description\": \x7b\"text\": " ++ json_str o.description_text ++
    "\x7d" ++
    (match o.favicon with
     | none => ""
     | some f => ", \"favicon\": " ++ json_str f) ++
    "\x7d"

/-- Serialization of the kick reply dictionary
`json.dumps(\x7b"text": kick_msg_text\x7d)` (src/main.py line 129). -/
def json_dumps_kick (kick : String) : String :=
  "\x7b\"text\": " ++ json_str kick ++ "\x7d"

/-- Embedding of `ClientThread.send_packet` (src/main.py lines 90-93):
the wire frame for a packet, `VarInt(len(body)) ++ body` with
`body = VarInt(packet_id) ++ data`. -/
def send_packet (packet_id : Nat) (data_bytes : List Nat) : List Nat :=
  write_varint (write_varint packet_id ++ data_bytes).length ++
    (write_varint packet_id ++ data_bytes)

/-- Observable outcome of one `ClientThread.run` session: the packets
passed to `send_packet` in order, as (packet id, payload) pairs; the
display name logged for the connection when the handshake body was
reached (src/main.py line 110-111); and whether the connection was
closed (the `finally` block, src/main.py line 135). -/
structure RunResult where
  sent : List (Nat × List Nat)
  display : Option String
  closed : Bool
deriving DecidableEq

/-- Embedding of `ClientThread.run` (src/main.py lines 95-135) on a
one-shot inbound buffer `stream` and the peer address string `addrIp`
(`self.addr[0]`).  A `none`-valued read models the corresponding raised
exception: it aborts to the `except` handler, keeping whatever was sent
before, and the `finally` block closes the connection on every path.
The outer packet length is read and discarded as in the source; a
packet id other than 0 falls through with no reply; `recv(2)` for the
port yields fewer than 2 bytes exactly when `struct.unpack(">H", ...)`
raises; the username read is `username_step`; the ping payload is
`recv(8)`, i.e. `take 8` of what remains. -/
def run (stream : List Nat) (addrIp : String) (cfg : ServerConfig) : RunResult :=
  match read_varint stream with
  | (none, _) => ⟨[], none, true⟩
  | (some _length, s1) =>
    match read_varint s1 with
    | (none, _) => ⟨[], none, true⟩
    | (some packet_id, s2) =>
      if packet_id = 0 then
        match read_varint s2 with
        | (none, _) => ⟨[], none, true⟩
        | (some _protocol_version, s3) =>
          match read_utf s3 with
          | (none, _) => ⟨[], none, true⟩
          | (some _server_address, s4) =>
            if s4.length < 2 then ⟨[], none, true⟩
            else
              match read_varint (s4.drop 2) with
              | (none, _) => ⟨[], none, true⟩
              | (some next_state, s6) =>
                let u := username_step s6
                let username_display := if u.1 ≠ "" then u.1 else addrIp
                if next_state = 1 then
                  ⟨[(0, write_utf (json_dumps_status (mkStatus cfg))),
                    (1, (u.2).take 8)], some username_display, true⟩
                else if next_state = 2 then
                  ⟨[(0, write_utf (json_dumps_kick cfg.kick_message))],
                    some username_display, true⟩
                else ⟨[], some username_display, true⟩
      else ⟨[], none, true⟩

/-- A concrete configuration mirroring the generated default config,
used to instantiate universally quantified theorems. -/
def sampleConfig : ServerConfig :=
  { version_text := "FakeMinecraftServer"
    motd := "A Minecraft Server"
    kick_message := "You cannot join this server.\nPlease contact admin.\n"
    max_players := 10
    online_players := 0
    icon := none }

/-- A well-formed handshake frame as `ClientThread.run` reads it: outer
length `len` (read but never validated), packet id 0, protocol version
`pv`, the server address as VarInt length plus bytes `ab`, the two
big-endian port bytes `p1 p2`, the next-state VarInt `ns`, and the
remaining inbound bytes `tail` (optional username section, then any
ping payload). -/
def handshake_stream (len pv : Nat) (ab : List Nat) (p1 p2 ns : Nat)
    (tail : List Nat) : List Nat :=
  write_varint len ++ (write_varint 0 ++ (write_varint pv ++
    (write_varint ab.length ++ (ab ++ (p1 :: p2 :: (write_varint ns ++ tail))))))

theorem shiftRight7_lt {v : Nat} (h : v ≠ 0) : v >>> 7 < v := by
  rw [Nat.shiftRight_eq_div_pow]
  exact Nat.div_lt_self (Nat.pos_of_ne_zero h) (by norm_num)

theorem write_varint_go_congr :
    ∀ fuel₁ fuel₂ v, v ≤ fuel₁ → v ≤ fuel₂ →
      write_varint_go fuel₁ v = write_varint_go fuel₂ v := by
  intro fuel₁
  induction fuel₁ with
  | zero =>
    intro fuel₂ v h1 _
    interval_cases v
    cases fuel₂ <;> simp [write_varint_go]
  | succ f ih =>
    intro fuel₂ v h1 h2
    by_cases hv : v >>> 7 = 0
    · cases fuel₂ <;> simp [write_varint_go, hv]
    · have hv0 : v ≠ 0 := by
        intro e; subst e; simp at hv
      have hlt : v >>> 7 < v := shiftRight7_lt hv0
      obtain ⟨f₂, rfl⟩ : ∃ f₂, fuel₂ = f₂ + 1 := by
        cases fuel₂ with
        | zero => omega
        | succ k => exact ⟨k, rfl⟩
      simp only [write_varint_go, hv, if_neg]
      rw [ih f₂ (v >>> 7) (by omega) (by omega)]

/-- Characteristic equation of `write_varint`: it is exactly the source
loop of `PacketUtils.write_varint`. -/
theorem write_varint_eq (value : Nat) :
    write_varint value =
      if value >>> 7 = 0 then [value &&& 0x7F]
      else (value &&& 0x7F ||| 0x80) :: write_varint (value >>> 7) := by
  cases value with
  | zero => simp [write_varint, write_varint_go]
  | succ v =>
    show write_varint_go (v + 1) (v + 1) = _
    by_cases hv : (v + 1) >>> 7 = 0
    · simp [write_varint_go, hv]
    · have hlt : (v + 1) >>> 7 < v + 1 := shiftRight7_lt (by omega)
      simp only [write_varint_go, hv, if_neg]
      rw [write_varint, write_varint_go_congr v ((v+1) >>> 7) ((v+1) >>> 7) (by omega) (by omega)]

theorem and127_eq_mod (v : Nat) : v &&& 0x7F = v % 128 := by
  have h : (0x7F : Nat) = 2 ^ 7 - 1 := by norm_num
  rw [h, Nat.and_pow_two_sub_one_eq_mod]

theorem and127_lt (v : Nat) : v &&& 0x7F < 128 := by
  rw [and127_eq_mod]; exact Nat.mod_lt _ (by norm_num)

theorem and127_and128 (v : Nat) : (v &&& 0x7F) &&& 0x80 = 0 := by
  rw [Nat.and_assoc, show (0x7F &&& 0x80 : Nat) = 0 from by decide, Nat.and_zero]

theorem and127_and127 (v : Nat) : (v &&& 0x7F) &&& 0x7F = v &&& 0x7F := by
  rw [Nat.and_assoc, show (0x7F &&& 0x7F : Nat) = 0x7F from by decide]

theorem cont_and128 (v : Nat) : (v &&& 0x7F ||| 0x80) &&& 0x80 = 0x80 := by
  rw [Nat.and_distrib_right, and127_and128,
    show (0x80 &&& 0x80 : Nat) = 0x80 from by decide, Nat.zero_or]

theorem cont_and127 (v : Nat) : (v &&& 0x7F ||| 0x80) &&& 0x7F = v &&& 0x7F := by
  rw [Nat.and_distrib_right, and127_and127,
    show (0x80 &&& 0x7F : Nat) = 0 from by decide, Nat.or_zero]

theorem and127_of_lt {v : Nat} (h : v < 128) : v &&& 0x7F = v := by
  rw [and127_eq_mod]; exact Nat.mod_eq_of_lt h

theorem shiftRight7_eq_zero_iff {v : Nat} : v >>> 7 = 0 ↔ v < 128 := by
  rw [Nat.shiftRight_eq_div_pow]
  norm_num [Nat.div_eq_zero_iff]

/-- Bit-splitting identity behind the VarInt round trip: the low 7 bits
placed at position `k` together with the rest placed at position `k + 7`
rebuild the whole value shifted to position `k`. -/
theorem split7 (v k : Nat) :
    ((v &&& 0x7F) <<< k) ||| ((v >>> 7) <<< (k + 7)) = v <<< k := by
  have h : (0x7F : Nat) = 2 ^ 7 - 1 := by norm_num
  apply Nat.eq_of_testBit_eq
  intro i
  simp only [Nat.testBit_lor, Nat.testBit_shiftLeft, Nat.testBit_and,
    Nat.testBit_shiftRight, h, Nat.testBit_two_pow_sub_one]
  by_cases h1 : k ≤ i
  · by_cases h2 : k + 7 ≤ i
    · have e1 : ¬(i - k < 7) := by omega
      have e2 : 7 + (i - (k + 7)) = i - k := by omega
      simp [h1, h2, e1, e2]
    · have e1 : i - k < 7 := by omega
      simp [h1, h2, e1]
  · have h2 : ¬(k + 7 ≤ i) := by omega
    simp [h1, h2]

/-- Size bound for the encoder: a value below `2 ^ (7 * (k + 1))`
encodes in at most `k + 1` bytes. -/
theorem write_varint_length_le :
    ∀ k v, v < 2 ^ (7 * (k + 1)) → (write_varint v).length ≤ k + 1 := by
  intro k
  induction k with
  | zero =>
    intro v hv
    have : v >>> 7 = 0 := shiftRight7_eq_zero_iff.mpr (by norm_num at hv ⊢; omega)
    rw [write_varint_eq, if_pos this]
    simp
  | succ k ih =>
    intro v hv
    rw [write_varint_eq]
    by_cases h7 : v >>> 7 = 0
    · simp [h7]
    · rw [if_neg h7]
      have hlt : v >>> 7 < 2 ^ (7 * (k + 1)) := by
        rw [Nat.shiftRight_eq_div_pow]
        rw [Nat.div_lt_iff_lt_mul (by norm_num)]
        calc v < 2 ^ (7 * (k + 2)) := hv
        _ = 2 ^ (7 * (k + 1)) * 2 ^ 7 := by ring
      have := ih (v >>> 7) hlt
      simp only [List.length_cons]
      omega

/-- Encoding always produces at least one byte. -/
theorem write_varint_length_pos (v : Nat) : 1 ≤ (write_varint v).length := by
  rw [write_varint_eq]
  split <;> simp

/-- Round trip of the codec pair, phrased at an arbitrary loop position:
running the decoder loop at byte index `n` and accumulator `result` on
the encoding of `v` followed by `rest` succeeds, consumes exactly the
encoding, and ors `v <<< (7 * n)` into the accumulator, provided the
encoding finishes before the decoder's six-byte raise. -/
theorem read_write_aux :
    ∀ v n result rest, n + (write_varint v).length ≤ 6 →
      read_varint_aux (write_varint v ++ rest) n result =
        (some (result ||| v <<< (7 * n)), rest) := by
  intro v
  induction v using Nat.strong_induction_on with
  | _ v ih =>
    intro n result rest hlen
    rw [write_varint_eq]
    by_cases h7 : v >>> 7 = 0
    · rw [if_pos h7]
      have hv : v &&& 0x7F = v := and127_of_lt (shiftRight7_eq_zero_iff.mp h7)
      simp only [List.cons_append, read_varint_aux, and127_and128, and127_and127]
      rw [hv]
      simp
    · rw [if_neg h7]
      have hne : ¬(((v &&& 0x7F ||| 0x80) &&& 0x80 == 0) = true) := by
        rw [cont_and128]; decide
      have hv0 : v ≠ 0 := by
        intro e; subst e; simp at h7
      have hrec : 1 ≤ (write_varint (v >>> 7)).length := write_varint_length_pos _
      rw [write_varint_eq, if_neg h7] at hlen
      simp only [List.length_cons] at hlen
      have hn5 : ¬(n + 1 > 5) := by omega
      simp only [List.cons_append, read_varint_aux, cont_and127, List.append_eq]
      rw [if_neg hne, if_neg hn5]
      rw [ih (v >>> 7) (shiftRight7_lt hv0) (n + 1) _ rest (by omega)]
      rw [Nat.lor_assoc, show 7 * (n + 1) = 7 * n + 7 from by ring, split7]

/-- Decoding an encoded 32-bit value followed by any remainder of the
stream returns the value and leaves exactly the remainder. -/
theorem read_write (v : Nat) (rest : List Nat) (hv : v < 2 ^ 32) :
    read_varint (write_varint v ++ rest) = (some v, rest) := by
  have hlen : (write_varint v).length ≤ 5 :=
    write_varint_length_le 4 v (lt_of_lt_of_le hv (by norm_num))
  have := read_write_aux v 0 0 rest (by omega)
  rw [read_varint, this]
  simp

/-- Invariant bound on the decoder loop: starting at byte index `n ≤ 5`
with an accumulator below `2 ^ (7 * n)`, any successfully decoded value
is below `2 ^ 42` (six payload groups of seven bits). -/
theorem read_varint_aux_lt :
    ∀ (s : List Nat) (n result : Nat), n ≤ 5 → result < 2 ^ (7 * n) →
      ∀ v rest, read_varint_aux s n result = (some v, rest) → v < 2 ^ 42 := by
  intro s
  induction s with
  | nil =>
    intro n result hn hr v rest h
    simp only [read_varint_aux, Prod.mk.injEq, Option.some.injEq] at h
    obtain ⟨rfl, rfl⟩ := h
    exact lt_of_lt_of_le hr (Nat.pow_le_pow_right (by norm_num) (by omega))
  | cons b rest' ih =>
    intro n result hn hr v rest h
    have hres : result ||| ((b &&& 0x7F) <<< (7 * n)) < 2 ^ (7 * (n + 1)) := by
      apply Nat.or_lt_two_pow
      · exact lt_of_lt_of_le hr (Nat.pow_le_pow_right (by norm_num) (by omega))
      · rw [Nat.shiftLeft_eq]
        have hp : (0 : Nat) < 2 ^ (7 * n) := pow_pos (by norm_num) _
        calc (b &&& 0x7F) * 2 ^ (7 * n) < 128 * 2 ^ (7 * n) :=
              (Nat.mul_lt_mul_right hp).mpr (and127_lt b)
        _ = 2 ^ (7 * (n + 1)) := by
              rw [show (128 : Nat) = 2 ^ 7 from by norm_num, ← pow_add]
              congr 1
              omega
    simp only [read_varint_aux] at h
    split at h
    · simp only [Prod.mk.injEq, Option.some.injEq] at h
      obtain ⟨rfl, rfl⟩ := h
      exact lt_of_lt_of_le hres (Nat.pow_le_pow_right (by norm_num) (by omega))
    · split at h
      · simp at h
      · have hn' : n + 1 ≤ 5 := by omega
        exact ih (n + 1) _ hn' hres v rest h

/-- Any value returned by the decoder is below `2 ^ 42`. -/
theorem read_varint_lt (s : List Nat) (v : Nat) (rest : List Nat)
    (h : read_varint s = (some v, rest)) : v < 2 ^ 42 :=
  read_varint_aux_lt s 0 0 (by omega) (by norm_num) v rest h

/-- When the stream runs out before a terminator byte, the decoder loop
just returns its accumulator as a successfully decoded value, provided
the six-byte raise is not reached first. -/
theorem read_varint_aux_exhaust :
    ∀ (s : List Nat) (n result : Nat), n + s.length ≤ 5 →
      (∀ b ∈ s, b &&& 0x80 ≠ 0) →
      ∃ v, read_varint_aux s n result = (some v, []) := by
  intro s
  induction s with
  | nil =>
    intro n result _ _
    exact ⟨result, rfl⟩
  | cons b rest' ih =>
    intro n result hlen hb
    have hb0 : b &&& 0x80 ≠ 0 := hb b (by simp)
    have hcond : ¬((b &&& 0x80 == 0) = true) := by
      simp only [beq_iff_eq]
      exact hb0
    simp only [List.length_cons] at hlen
    simp only [read_varint_aux]
    rw [if_neg hcond, if_neg (by omega : ¬(n + 1 > 5))]
    exact ih (n + 1) _ (by omega) (fun x hx => hb x (by simp [hx]))

/-- On non-negative input the fuelled `write_varint` loop terminates
with exactly the bytes of `write_varint`, for any sufficient fuel. -/
theorem write_varint_loop_nat :
    ∀ (v : Nat) (fuel : Nat) (buf : List Nat), v < fuel →
      write_varint_loop fuel (v : Int) buf = some (buf ++ write_varint v) := by
  intro v
  induction v using Nat.strong_induction_on with
  | _ v ih =>
    intro fuel buf hfuel
    obtain ⟨f, rfl⟩ : ∃ f, fuel = f + 1 := ⟨fuel - 1, by omega⟩
    have hmod : ((v : Int) % 128) = ((v % 128 : Nat) : Int) := rfl
    have hdiv : ((v : Int) / 128) = ((v / 128 : Nat) : Int) := rfl
    have hshift : v >>> 7 = v / 128 := by
      rw [Nat.shiftRight_eq_div_pow]
    simp only [write_varint_loop, hmod, hdiv, Int.toNat_ofNat, ne_eq,
      Nat.cast_eq_zero]
    by_cases h0 : v / 128 = 0
    · have h7 : v >>> 7 = 0 := by rw [hshift]; exact h0
      rw [if_pos h0, if_neg (not_not_intro h0)]
      rw [write_varint_eq, if_pos h7, and127_eq_mod]
    · have hvne : v ≠ 0 := by
        intro e; subst e; simp at h0
      have hlt : v / 128 < v := Nat.div_lt_self (Nat.pos_of_ne_zero hvne) (by norm_num)
      rw [if_neg h0, if_pos h0]
      have h7 : ¬v >>> 7 = 0 := by rw [hshift]; exact h0
      rw [ih (v / 128) hlt f _ (by omega)]
      conv_rhs => rw [write_varint_eq, if_neg h7]
      rw [List.append_assoc, List.singleton_append, and127_eq_mod, hshift]

/-- On negative input the loop of `write_varint` never terminates: the
fuelled embedding returns `none` for every fuel. -/
theorem write_varint_loop_neg :
    ∀ (fuel : Nat) (v : Int), v < 0 → ∀ buf, write_varint_loop fuel v buf = none := by
  intro fuel
  induction fuel with
  | zero => intro v _ buf; rfl
  | succ f ih =>
    intro v hv buf
    have hdiv : v / 128 < 0 := Int.ediv_neg' hv (by norm_num)
    simp only [write_varint_loop, ne_eq]
    rw [if_pos (by omega : ¬v / 128 = 0), if_neg (by omega : ¬v / 128 = 0)]
    exact ih (v / 128) hdiv _

/-- C1: for every unsigned integer `v` with `0 ≤ v < 2^32`, decoding
the byte sequence produced by the VarInt encoder yields `v` back,
consuming the whole encoding. -/
theorem c1_varint_roundtrip (v : Nat) (hv : v < 2 ^ 32) :
    read_varint (write_varint v) = (some v, []) := by
  have h := read_write v [] hv
  simpa using h

theorem c1_varint_roundtrip_witness :
    300 < 2 ^ 32 ∧ read_varint (write_varint 300) = (some 300, []) :=
  ⟨by norm_num, c1_varint_roundtrip 300 (by norm_num)⟩

/-- C4 counterexample: the decoder accepts a six-byte sequence — the
raise fires only when the sixth byte still carries the continuation
bit, so `80 80 80 80 80 01` decodes to `2 ^ 35` rather than being
rejected, refuting "no sequence of 6 or more bytes is ever accepted as
a decoded value". -/
theorem c4_counterexample :
    read_varint [0x80, 0x80, 0x80, 0x80, 0x80, 0x01] =
      (some 34359738368, []) := by decide

/-- C4 as amended: the encoder stays within 5 bytes for 32-bit values,
and the decoder raises VarInt-too-big exactly when six consecutive
bytes all carry the continuation bit; a six-byte input whose sixth byte
clears the bit is accepted instead of rejected. -/
theorem c4_amended :
    (∀ v : Nat, v < 2 ^ 32 → (write_varint v).length ≤ 5) ∧
    (∀ b₀ b₁ b₂ b₃ b₄ b₅ : Nat, ∀ rest : List Nat,
      b₀ &&& 0x80 ≠ 0 → b₁ &&& 0x80 ≠ 0 → b₂ &&& 0x80 ≠ 0 →
      b₃ &&& 0x80 ≠ 0 → b₄ &&& 0x80 ≠ 0 → b₅ &&& 0x80 ≠ 0 →
      read_varint (b₀ :: b₁ :: b₂ :: b₃ :: b₄ :: b₅ :: rest) = (none, rest)) := by
  constructor
  · intro v hv
    exact write_varint_length_le 4 v (lt_of_lt_of_le hv (by norm_num))
  · intro b₀ b₁ b₂ b₃ b₄ b₅ rest h0 h1 h2 h3 h4 h5
    simp [read_varint, read_varint_aux, h0, h1, h2, h3, h4, h5]

theorem c4_amended_witness :
    (4294967295 : Nat) < 2 ^ 32 ∧ (write_varint 4294967295).length ≤ 5 ∧
    read_varint [0x80, 0x80, 0x80, 0x80, 0x80, 0x80, 9] = (none, [9]) :=
  ⟨by norm_num, c4_amended.1 4294967295 (by norm_num),
    c4_amended.2 0x80 0x80 0x80 0x80 0x80 0x80 [9] (by decide) (by decide)
      (by decide) (by decide) (by decide) (by decide)⟩

/-- C5 counterexample: an exhausted source is not signalled as a
truncated read — the empty source decodes as the value zero, with a
result identical to that of decoding a genuine encoding of zero. -/
theorem c5_counterexample :
    read_varint [] = (some 0, []) ∧
    read_varint [] = read_varint (write_varint 0) := by
  constructor <;> decide

/-- C5 as amended: when the byte source is exhausted before a
terminator byte, the decoder silently returns the value accumulated so
far as an ordinary decoded value (the empty source yields zero); no
truncation error distinguishable from success is raised as long as the
six-byte raise is not reached. -/
theorem c5_amended :
    read_varint [] = (some 0, []) ∧
    ∀ s : List Nat, s.length ≤ 5 → (∀ b ∈ s, b &&& 0x80 ≠ 0) →
      ∃ v, read_varint s = (some v, []) := by
  refine ⟨by decide, ?_⟩
  intro s hlen hb
  exact read_varint_aux_exhaust s 0 0 (by omega) hb

theorem c5_amended_witness :
    ∃ v, read_varint [0x81, 0x82] = (some v, []) :=
  c5_amended.2 [0x81, 0x82] (by decide) (by decide)

/-- C6 counterexample: the decoder keeps bits beyond bit 31 — the valid
five-byte input `80 80 80 80 10` decodes to exactly `2 ^ 32`, refuting
"the returned value is always strictly less than 2^32". -/
theorem c6_counterexample :
    read_varint [0x80, 0x80, 0x80, 0x80, 0x10] = (some 4294967296, []) ∧
    ¬(4294967296 : Nat) < 2 ^ 32 := by
  constructor <;> decide

/-- C6 as amended: the decoder accumulates 7 bits per byte without ever
discarding high bits, so a returned value is only guaranteed to be
below `2 ^ 42` (six groups of seven bits), not below `2 ^ 32`. -/
theorem c6_amended (s : List Nat) (v : Nat) (rest : List Nat)
    (h : read_varint s = (some v, rest)) : v < 2 ^ 42 :=
  read_varint_lt s v rest h

theorem c6_amended_witness :
    read_varint [0x80, 0x80, 0x80, 0x80, 0x10] = (some 4294967296, []) ∧
    (4294967296 : Nat) < 2 ^ 42 :=
  ⟨by decide, c6_amended [0x80, 0x80, 0x80, 0x80, 0x10] 4294967296 [] (by decide)⟩

/-- C9: the encoder loop terminates for every non-negative input with
at least one byte emitted (agreeing with the `Nat` embedding), and for
every negative input the loop never terminates: the fuelled embedding
runs out of any amount of fuel. -/
theorem c9_encoder_termination :
    (∀ v : Nat, ∃ fuel : Nat, write_varint_loop fuel (v : Int) [] =
      some (write_varint v) ∧ 1 ≤ (write_varint v).length) ∧
    (∀ v : Int, v < 0 → ∀ fuel : Nat, ∀ buf : List Nat,
      write_varint_loop fuel v buf = none) := by
  constructor
  · intro v
    refine ⟨v + 1, ?_, write_varint_length_pos v⟩
    have h := write_varint_loop_nat v (v + 1) [] (by omega)
    simpa using h
  · intro v hv fuel buf
    exact write_varint_loop_neg fuel v hv buf

theorem c9_encoder_termination_witness :
    (∃ fuel : Nat, write_varint_loop fuel ((0 : Nat) : Int) [] =
      some (write_varint 0) ∧ 1 ≤ (write_varint 0).length) ∧
    write_varint_loop 9999 (-5 : Int) [] = none :=
  ⟨c9_encoder_termination.1 0,
    c9_encoder_termination.2 (-5) (by norm_num) 9999 []⟩

/-- Reading a well-formed length-prefixed UTF-8 string consumes exactly
its encoding and decodes it. -/
theorem read_utf_encode (ab : List Nat) (a : String) (rest : List Nat)
    (hab : ab.length < 2 ^ 32) (ha : utf8_decode ab = some a) :
    read_utf (write_varint ab.length ++ (ab ++ rest)) = (some a, rest) := by
  simp only [read_utf, read_write ab.length (ab ++ rest) hab,
    List.take_left, List.drop_left, ha]

/-- The guarded username read on a well-formed username section decodes
it and consumes exactly the declared bytes. -/
theorem username_step_some (ul : Nat) (ubytes : List Nat) (u : String)
    (hul : ul < 2 ^ 32) (hu : utf8_decode (ubytes.take ul) = some u) :
    username_step (write_varint ul ++ ubytes) = (u, ubytes.drop ul) := by
  simp only [username_step, read_write ul ubytes hul, hu]

/-- The guarded username read falls back to the constant `"Unknown"`
when the declared bytes are not valid UTF-8, still consuming them. -/
theorem username_step_none (ul : Nat) (ubytes : List Nat)
    (hul : ul < 2 ^ 32) (hu : utf8_decode (ubytes.take ul) = none) :
    username_step (write_varint ul ++ ubytes) = ("Unknown", ubytes.drop ul) := by
  simp only [username_step, read_write ul ubytes hul, hu]

/-- Symbolic execution of `ClientThread.run` over a well-formed
handshake frame, up to the `next_state` dispatch: the status path sends
the status JSON then echoes `recv(8)` of what follows the username
read; the login path sends the kick JSON; any other state sends
nothing; the display name is the decoded username, the peer address if
that username is empty, and the connection is closed in each case. -/
theorem run_handshake (len pv : Nat) (ab : List Nat) (p1 p2 ns : Nat)
    (tail : List Nat) (ip : String) (cfg : ServerConfig)
    (hlen : len < 2 ^ 32) (hpv : pv < 2 ^ 32) (hab : ab.length < 2 ^ 32)
    (ha : ∃ a, utf8_decode ab = some a) (hns : ns < 2 ^ 32) :
    run (handshake_stream len pv ab p1 p2 ns tail) ip cfg =
      if ns = 1 then
        ⟨[(0, write_utf (json_dumps_status (mkStatus cfg))),
          (1, ((username_step tail).2).take 8)],
          some (if (username_step tail).1 ≠ "" then (username_step tail).1 else ip),
          true⟩
      else if ns = 2 then
        ⟨[(0, write_utf (json_dumps_kick cfg.kick_message))],
          some (if (username_step tail).1 ≠ "" then (username_step tail).1 else ip),
          true⟩
      else
        ⟨[], some (if (username_step tail).1 ≠ "" then (username_step tail).1 else ip),
          true⟩ := by
  obtain ⟨a, ha⟩ := ha
  have r1 := read_write len (write_varint 0 ++ (write_varint pv ++
    (write_varint ab.length ++ (ab ++ (p1 :: p2 :: (write_varint ns ++ tail)))))) hlen
  have r2 := read_write 0 (write_varint pv ++
    (write_varint ab.length ++ (ab ++ (p1 :: p2 :: (write_varint ns ++ tail))))) (by norm_num)
  have r3 := read_write pv
    (write_varint ab.length ++ (ab ++ (p1 :: p2 :: (write_varint ns ++ tail)))) hpv
  have r4 := read_utf_encode ab a (p1 :: p2 :: (write_varint ns ++ tail)) hab ha
  have r5 := read_write ns tail hns
  have hport : ¬((p1 :: p2 :: (write_varint ns ++ tail)).length < 2) := by
    simp
  simp only [run, handshake_stream, r1, r2, r3, r4, r5, if_pos rfl,
    if_neg hport, List.drop_succ_cons, List.drop_zero, if_true]

/-- C2: a handshake with packet id 0 and `next_state = 1` followed by a
well-formed username section and exactly 8 ping bytes makes the session
send exactly two packets — the status JSON under packet id 0, then the
8 ping bytes echoed unmodified under packet id 1 — and close the
connection. -/
theorem c2_status_two_packets (len pv : Nat) (ab : List Nat) (p1 p2 : Nat)
    (ub ping : List Nat) (u : String) (ip : String) (cfg : ServerConfig)
    (hlen : len < 2 ^ 32) (hpv : pv < 2 ^ 32) (hab : ab.length < 2 ^ 32)
    (ha : ∃ a, utf8_decode ab = some a) (hub : ub.length < 2 ^ 32)
    (hu : utf8_decode ub = some u) (hping : ping.length = 8) :
    run (handshake_stream len pv ab p1 p2 1 (write_varint ub.length ++ (ub ++ ping)))
        ip cfg =
      ⟨[(0, write_utf (json_dumps_status (mkStatus cfg))), (1, ping)],
        some (if u ≠ "" then u else ip), true⟩ := by
  have hstep : username_step (write_varint ub.length ++ (ub ++ ping)) = (u, ping) := by
    have h := username_step_some ub.length (ub ++ ping) u hub
      (by rw [List.take_left]; exact hu)
    rw [h, List.drop_left]
  rw [run_handshake len pv ab p1 p2 1 _ ip cfg hlen hpv hab ha (by norm_num),
    if_pos rfl, hstep]
  rw [show ping.take 8 = ping from by rw [← hping, List.take_length]]

theorem c2_status_two_packets_witness :
    run (handshake_stream 16 754 [] 0 25 1
        (write_varint 1 ++ ([65] ++ [1, 2, 3, 4, 5, 6, 7, 8]))) "1.2.3.4" sampleConfig =
      ⟨[(0, write_utf (json_dumps_status (mkStatus sampleConfig))),
        (1, [1, 2, 3, 4, 5, 6, 7, 8])], some "A", true⟩ := by
  have h := c2_status_two_packets 16 754 [] 0 25 [65] [1, 2, 3, 4, 5, 6, 7, 8]
    "A" "1.2.3.4" sampleConfig (by norm_num) (by norm_num) (by decide)
    ⟨"", rfl⟩ (by decide) (by decide) (by decide)
  simpa using h

/-- C3: a handshake with packet id 0 and `next_state = 2` makes the
session send exactly one packet — the kick message serialized as the
JSON object with a single `text` field, length-prefixed as a UTF-8
string, under packet id 0 — and close the connection, whatever bytes
follow the next-state field. -/
theorem c3_login_kick (len pv : Nat) (ab : List Nat) (p1 p2 : Nat)
    (tail : List Nat) (ip : String) (cfg : ServerConfig)
    (hlen : len < 2 ^ 32) (hpv : pv < 2 ^ 32) (hab : ab.length < 2 ^ 32)
    (ha : ∃ a, utf8_decode ab = some a) :
    run (handshake_stream len pv ab p1 p2 2 tail) ip cfg =
      ⟨[(0, write_utf (json_dumps_kick cfg.kick_message))],
        some (if (username_step tail).1 ≠ "" then (username_step tail).1 else ip),
        true⟩ := by
  rw [run_handshake len pv ab p1 p2 2 tail ip cfg hlen hpv hab ha (by norm_num),
    if_neg (by norm_num), if_pos rfl]

theorem c3_login_kick_witness :
    run (handshake_stream 16 754 [] 0 25 2 (write_varint 5 ++ [83, 116, 101, 118, 101]))
        "1.2.3.4" sampleConfig =
      ⟨[(0, write_utf (json_dumps_kick sampleConfig.kick_message))],
        some "Steve", true⟩ := by
  have h := c3_login_kick 16 754 [] 0 25 (write_varint 5 ++ [83, 116, 101, 118, 101])
    "1.2.3.4" sampleConfig (by norm_num) (by norm_num) (by decide) ⟨"", rfl⟩
  rw [h]
  decide

/-- C7: on the status path the whole observable outcome of the session
is independent of the protocol version the client declared — two runs
differing only in that field send identical packets — and the status
object's `version.protocol` field is the constant `-1`. -/
theorem c7_protocol_independent (len pv₁ pv₂ : Nat) (ab : List Nat)
    (p1 p2 : Nat) (tail : List Nat) (ip : String) (cfg : ServerConfig)
    (hlen : len < 2 ^ 32) (hpv₁ : pv₁ < 2 ^ 32) (hpv₂ : pv₂ < 2 ^ 32)
    (hab : ab.length < 2 ^ 32) (ha : ∃ a, utf8_decode ab = some a) :
    run (handshake_stream len pv₁ ab p1 p2 1 tail) ip cfg =
      run (handshake_stream len pv₂ ab p1 p2 1 tail) ip cfg ∧
    (mkStatus cfg).version_protocol = -1 := by
  constructor
  · rw [run_handshake len pv₁ ab p1 p2 1 tail ip cfg hlen hpv₁ hab ha (by norm_num),
      run_handshake len pv₂ ab p1 p2 1 tail ip cfg hlen hpv₂ hab ha (by norm_num)]
  · rfl

theorem c7_protocol_independent_witness :
    run (handshake_stream 16 754 [] 0 25 1 []) "1.2.3.4" sampleConfig =
      run (handshake_stream 16 47 [] 0 25 1 []) "1.2.3.4" sampleConfig ∧
    (mkStatus sampleConfig).version_protocol = -1 :=
  c7_protocol_independent 16 754 47 [] 0 25 [] "1.2.3.4" sampleConfig
    (by norm_num) (by norm_num) (by norm_num) (by decide) ⟨"", rfl⟩

/-- C8 counterexample: when the username bytes are invalid UTF-8 the
decode failure is swallowed and the reply is still sent, but the
logged display name is the constant `"Unknown"`, not a value derived
from the caller's source address `"9.9.9.9"`. -/
theorem c8_counterexample :
    (run (handshake_stream 16 0 [] 0 25 2 [1, 0xFF]) "9.9.9.9" sampleConfig).display
        = some "Unknown" ∧
    "Unknown" ≠ "9.9.9.9" ∧
    (run (handshake_stream 16 0 [] 0 25 2 [1, 0xFF]) "9.9.9.9" sampleConfig).sent.length
        = 1 := by
  refine ⟨rfl, by decide, rfl⟩

/-- C8 as amended: a failed username decode (invalid UTF-8 in the
declared bytes) is swallowed and the kick or status reply is still
sent, but the display name used for logging falls back to the constant
`"Unknown"`; the value derived from the caller's source address is used
only when a username decodes successfully to the empty string. -/
theorem c8_amended :
    (∀ len pv : Nat, ∀ ab : List Nat, ∀ p1 p2 ul : Nat, ∀ ubytes : List Nat,
      ∀ ip : String, ∀ cfg : ServerConfig,
      len < 2 ^ 32 → pv < 2 ^ 32 → ab.length < 2 ^ 32 →
      (∃ a, utf8_decode ab = some a) → ul < 2 ^ 32 →
      utf8_decode (ubytes.take ul) = none →
      run (handshake_stream len pv ab p1 p2 2 (write_varint ul ++ ubytes)) ip cfg =
        ⟨[(0, write_utf (json_dumps_kick cfg.kick_message))], some "Unknown", true⟩) ∧
    (∀ len pv : Nat, ∀ ab : List Nat, ∀ p1 p2 ul : Nat, ∀ ubytes : List Nat,
      ∀ ip : String, ∀ cfg : ServerConfig,
      len < 2 ^ 32 → pv < 2 ^ 32 → ab.length < 2 ^ 32 →
      (∃ a, utf8_decode ab = some a) → ul < 2 ^ 32 →
      utf8_decode (ubytes.take ul) = none →
      run (handshake_stream len pv ab p1 p2 1 (write_varint ul ++ ubytes)) ip cfg =
        ⟨[(0, write_utf (json_dumps_status (mkStatus cfg))),
          (1, (ubytes.drop ul).take 8)], some "Unknown", true⟩) := by
  constructor
  · intro len pv ab p1 p2 ul ubytes ip cfg hlen hpv hab ha hul hu
    rw [run_handshake len pv ab p1 p2 2 _ ip cfg hlen hpv hab ha (by norm_num),
      if_neg (by norm_num), if_pos rfl, username_step_none ul ubytes hul hu]
    simp
  · intro len pv ab p1 p2 ul ubytes ip cfg hlen hpv hab ha hul hu
    rw [run_handshake len pv ab p1 p2 1 _ ip cfg hlen hpv hab ha (by norm_num),
      if_pos rfl, username_step_none ul ubytes hul hu]
    simp

theorem c8_amended_witness :
    run (handshake_stream 16 0 [] 0 25 2 (write_varint 1 ++ [0xFF])) "9.9.9.9"
        sampleConfig =
      ⟨[(0, write_utf (json_dumps_kick sampleConfig.kick_message))],
        some "Unknown", true⟩ :=
  c8_amended.1 16 0 [] 0 25 1 [0xFF] "9.9.9.9" sampleConfig (by norm_num)
    (by norm_num) (by decide) ⟨"", rfl⟩ (by norm_num) (by decide)

/-- C10: on the status path, when fewer than 8 ping-payload bytes are
delivered (the stream ends early, possibly with no bytes at all), the
session raises no error and still sends packet id 1 whose payload is
exactly the bytes actually received, possibly empty. -/
theorem c10_short_ping (len pv : Nat) (ab : List Nat) (p1 p2 : Nat)
    (ub ping : List Nat) (u : String) (ip : String) (cfg : ServerConfig)
    (hlen : len < 2 ^ 32) (hpv : pv < 2 ^ 32) (hab : ab.length < 2 ^ 32)
    (ha : ∃ a, utf8_decode ab = some a) (hub : ub.length < 2 ^ 32)
    (hu : utf8_decode ub = some u) (hping : ping.length < 8) :
    run (handshake_stream len pv ab p1 p2 1 (write_varint ub.length ++ (ub ++ ping)))
        ip cfg =
      ⟨[(0, write_utf (json_dumps_status (mkStatus cfg))), (1, ping)],
        some (if u ≠ "" then u else ip), true⟩ := by
  have hstep : username_step (write_varint ub.length ++ (ub ++ ping)) = (u, ping) := by
    have h := username_step_some ub.length (ub ++ ping) u hub
      (by rw [List.take_left]; exact hu)
    rw [h, List.drop_left]
  rw [run_handshake len pv ab p1 p2 1 _ ip cfg hlen hpv hab ha (by norm_num),
    if_pos rfl, hstep]
  rw [show ping.take 8 = ping from List.take_of_length_le (by omega)]

theorem c10_short_ping_witness :
    run (handshake_stream 16 754 [] 0 25 1 (write_varint 1 ++ ([65] ++ [])))
        "1.2.3.4" sampleConfig =
      ⟨[(0, write_utf (json_dumps_status (mkStatus sampleConfig))), (1, [])],
        some "A", true⟩ := by
  have h := c10_short_ping 16 754 [] 0 25 [65] [] "A" "1.2.3.4" sampleConfig
    (by norm_num) (by norm_num) (by decide) ⟨"", rfl⟩ (by decide) (by decide)
    (by decide)
  simpa using h

example : write_varint 0 = [0] := by decide
example : write_varint 300 = [0xAC, 0x02] := by decide
example : read_varint [0xAC, 0x02, 7] = (some 300, [7]) := by decide
example : read_varint [] = (some 0, []) := by decide
example : read_varint [0x80, 0x80, 0x80, 0x80, 0x80, 0x01] = (some (1 <<< 35), []) := by decide
example : read_varint [0x80, 0x80, 0x80, 0x80, 0x80, 0x81, 0x00] = (none, [0x00]) := by decide

end FakeMC
